import Mathlib

/-!
Shallow embedding of the live-attendance core of the youth-group backend
(`src/setup_redis.py`): the toggle operation `student_checkin_edit`, the
snapshot `get_live_attendance`, the finalization `finalize_event_attendance`
and the raffle `get_random_winner`, together with theorems checking the
specification's claims about them.

Modelling conventions:
* A Redis set is a duplicate-free `List Int` (student ids are Python ints;
  `str`/`int` conversion is the identity on the canonical representations the
  code produces, so we keep ids as `Int` throughout).
* A Redis hash is an association list `List (Int × String)`; `hset` removes
  any previous binding and appends the new one, `hdel` removes the binding,
  `hget` is Python's `dict.get`.
* Timestamps stay abstract `String`s (the code only stores and re-reads
  them); `datetime.fromisoformat(t) if t else None` is modelled by `pyTime`,
  which maps the falsy empty string to `none` and keeps the string otherwise.
* The MySQL `event_attendance` table is a `List AttendanceRecord`; whether the
  batch insert succeeds is an explicit `Bool` parameter of finalize, and a
  raised MySQL exception is the `Except.error` branch.
* `SRANDMEMBER` is modelled by an arbitrary index `i`, reduced mod the set
  size; Redis draws this index uniformly, so uniformity of the winner reduces
  to each member being hit by exactly one index in `List.range card`.
-/

/-- Keys of an association list (a Redis hash / Python dict). -/
def hkeys (m : List (Int × String)) : List Int :=
  m.map Prod.fst

/-- Python `dict.get`: value bound to `k`, if any. -/
def hget : List (Int × String) → Int → Option String
  | [], _ => none
  | p :: rest, k => if p.1 = k then some p.2 else hget rest k

/-- Redis `HDEL`: drop every binding of key `k`. -/
def hdel : List (Int × String) → Int → List (Int × String)
  | [], _ => []
  | p :: rest, k => if p.1 = k then hdel rest k else p :: hdel rest k

/-- Redis `HSET`: bind `k` to `v`, replacing any previous binding. -/
def hset (m : List (Int × String)) (k : Int) (v : String) : List (Int × String) :=
  hdel m k ++ [(k, v)]

/-- Redis `SADD` on the duplicate-free list representing a Redis set. -/
def sadd (s : List Int) (x : Int) : List Int :=
  if x ∈ s then s else x :: s

/-- Redis `SREM`: remove a member from the set. -/
def srem (s : List Int) (x : Int) : List Int :=
  s.filter (fun y => y != x)

/-- Python truthiness of an optional string:
`datetime.fromisoformat(t) if t else None` keeps `t` exactly when it is a
non-empty string (timestamps stay abstract, so parsing is the identity). -/
def pyTime : Option String → Option String
  | none => none
  | some t => if t = "" then none else some t

/-- The three ephemeral Redis keys of one event:
`event:<id>:checkedIn`, `event:<id>:checkInTimes`, `event:<id>:checkOutTimes`. -/
structure EventState where
  checkInSet : List Int
  checkInTimes : List (Int × String)
  checkOutTimes : List (Int × String)
deriving Repr, DecidableEq

/-- No ephemeral data for the event (all three keys absent / deleted). -/
def emptyEvent : EventState :=
  { checkInSet := [], checkInTimes := [], checkOutTimes := [] }

/-- The toggle `student_checkin_edit(event_id, student_id)` from `src/setup_redis.py`:
Here `now` is `datetime.utcnow().isoformat(timespec="seconds")`. -/
def student_checkin_edit (st : EventState) (student : Int) (now : String) :
    EventState × String :=
  if student ∈ st.checkInSet then
    ({ st with
        checkInSet := srem st.checkInSet student
        checkOutTimes := hset st.checkOutTimes student now },
     "CHECKED OUT")
  else
    ({ st with
        checkInSet := sadd st.checkInSet student
        checkInTimes := hset st.checkInTimes student now
        checkOutTimes := hdel st.checkOutTimes student },
     "CHECKED IN")

/-- One element of the `students` list in the live-attendance response. -/
structure StudentStatus where
  student_id : Int
  check_in_time : String
deriving Repr, DecidableEq

/-- The dictionary returned by `get_live_attendance`. -/
structure LiveAttendance where
  event_id : Int
  checked_in_count : Nat
  students : List StudentStatus
deriving Repr, DecidableEq

/-- Snapshot `get_live_attendance(event_id)`: one pipelined read of the set cardinality,
the members, and the check-in-time hash, then one response row per member with
`times.get(student_id, "N/A")`. -/
def get_live_attendance (eid : Int) (st : EventState) : LiveAttendance :=
  { event_id := eid
    checked_in_count := st.checkInSet.length
    students := st.checkInSet.map fun m =>
      { student_id := m, check_in_time := (hget st.checkInTimes m).getD "N/A" } }

/-- One durable row of the MySQL `event_attendance` table. -/
structure AttendanceRecord where
  eventID : Int
  studentID : Int
  checkInTime : Option String
  checkOutTime : Option String
deriving Repr, DecidableEq

/-- The summary dictionary returned by a non-raising finalize. -/
structure FinalizeSummary where
  event_id : Int
  records_persisted : Nat
  message : String
deriving Repr, DecidableEq

/-- Combined state: the ephemeral keys of the event plus the durable table. -/
structure SysState where
  redis : EventState
  mysql : List AttendanceRecord
deriving Repr, DecidableEq

/-- The batch of rows finalize inserts: one per key ever present in
`checkInTimes`, with timestamps read back through Python truthiness. -/
def finalizeRecords (eid : Int) (st : EventState) : List AttendanceRecord :=
  (hkeys st.checkInTimes).map fun sid =>
    { eventID := eid
      studentID := sid
      checkInTime := pyTime (hget st.checkInTimes sid)
      checkOutTime := pyTime (hget st.checkOutTimes sid) }

/-- Finalization `finalize_event_attendance(event_id)` from `src/setup_redis.py`.
`mysqlOk` says whether the MySQL batch insert succeeds; on failure the insert
is rolled back and the function raises (`Except.error`), leaving both stores
untouched.  On any success the three Redis keys are deleted. -/
def finalize_event_attendance (eid : Int) (st : SysState) (mysqlOk : Bool) :
    SysState × Except String FinalizeSummary :=
  if (hkeys st.redis.checkInTimes).isEmpty then
    ({ redis := emptyEvent, mysql := st.mysql },
     Except.ok
       { event_id := eid
         records_persisted := 0
         message := "No attendance data found for this event" })
  else
    let records := finalizeRecords eid st.redis
    if mysqlOk then
      ({ redis := emptyEvent, mysql := st.mysql ++ records },
       Except.ok
         { event_id := eid
           records_persisted := records.length
           message := "Successfully persisted " ++ toString records.length ++
             " attendance records to MySQL" })
    else
      (st, Except.error "Failed to persist attendance to MySQL")

/-- Raffle `get_random_winner(event_id)`: `SRANDMEMBER` on the checked-in set, `nil`
mapped to `None` and the member string converted back with `int`.  The random
draw is the index `i` reduced mod the set size (uniform when `i` is uniform);
the read leaves the state unchanged. -/
def get_random_winner (st : EventState) (i : Nat) : EventState × Option Int :=
  (st, st.checkInSet[i % st.checkInSet.length]?)

/-- States reachable from no attendance data by any sequence of the four
operations on this event (snapshot and winner selection read without
writing).  Toggle timestamps are ISO strings, hence never empty. -/
inductive Reachable (eid : Int) : SysState → Prop
  | init : Reachable eid { redis := emptyEvent, mysql := [] }
  | toggle {st : SysState} (student : Int) (now : String) :
      Reachable eid st → now ≠ "" →
      Reachable eid { st with redis := (student_checkin_edit st.redis student now).1 }
  | finalize {st : SysState} (mysqlOk : Bool) :
      Reachable eid st →
      Reachable eid (finalize_event_attendance eid st mysqlOk).1
  | snapshot {st : SysState} :
      Reachable eid st → Reachable eid st
  | winner {st : SysState} :
      Reachable eid st → Reachable eid st

/-- The sequential invariant of one event's ephemeral state: the set is
duplicate-free, the hash has one binding per key, members have a check-in
time, no member has a pending check-out time, and stored stamps are
non-empty. -/
def InvE (e : EventState) : Prop :=
  e.checkInSet.Nodup ∧
  (hkeys e.checkInTimes).Nodup ∧
  (∀ x ∈ e.checkInSet, x ∈ hkeys e.checkInTimes) ∧
  (∀ x ∈ e.checkInSet, x ∉ hkeys e.checkOutTimes) ∧
  (∀ p ∈ e.checkInTimes, p.2 ≠ "")

/-! Basic lemmas about the Redis-hash model. -/

theorem hget_eq_none_iff (m : List (Int × String)) (k : Int) :
    hget m k = none ↔ k ∉ hkeys m := by
  induction m with
  | nil => simp [hget, hkeys]
  | cons p rest ih =>
    by_cases h : p.1 = k
    · simp [hget, hkeys, h]
    · simp [hget, hkeys, h, ih, Ne.symm h]

theorem hget_isSome_of_mem_hkeys (m : List (Int × String)) (k : Int)
    (h : k ∈ hkeys m) : ∃ v, hget m k = some v := by
  rcases ho : hget m k with _ | v
  · exact absurd ((hget_eq_none_iff m k).mp ho) (by simp [h])
  · exact ⟨v, rfl⟩

theorem hkeys_cons (p : Int × String) (rest : List (Int × String)) :
    hkeys (p :: rest) = p.1 :: hkeys rest := rfl

theorem hget_mem (m : List (Int × String)) (k : Int) (v : String)
    (h : hget m k = some v) : (k, v) ∈ m := by
  induction m with
  | nil => simp [hget] at h
  | cons p rest ih =>
    by_cases hp : p.1 = k
    · simp [hget, hp] at h
      have hpv : p = (k, v) := by
        cases p
        simp_all

      rw [hpv]
      exact List.mem_cons_self _ _
    · simp [hget, hp] at h
      exact List.mem_cons_of_mem _ (ih h)

theorem hget_hdel_self (m : List (Int × String)) (k : Int) :
    hget (hdel m k) k = none := by
  induction m with
  | nil => simp [hdel, hget]
  | cons p rest ih =>
    by_cases h : p.1 = k
    · simp [hdel, h, ih]
    · simp [hdel, hget, h, ih]

theorem mem_hkeys_hdel (m : List (Int × String)) (k x : Int) :
    x ∈ hkeys (hdel m k) ↔ x ∈ hkeys m ∧ x ≠ k := by
  induction m with
  | nil => simp [hdel, hkeys]
  | cons p rest ih =>
    by_cases h : p.1 = k
    · rw [show hdel (p :: rest) k = hdel rest k from by simp [hdel, h]]
      rw [ih, hkeys_cons, List.mem_cons, h]
      constructor
      · exact fun hx => ⟨Or.inr hx.1, hx.2⟩
      · rintro ⟨hx | hx, hne⟩
        · exact absurd hx hne
        · exact ⟨hx, hne⟩
    · rw [show hdel (p :: rest) k = p :: hdel rest k from by simp [hdel, h]]
      rw [hkeys_cons, hkeys_cons, List.mem_cons, List.mem_cons, ih]
      constructor
      · rintro (hx | hx)
        · exact ⟨Or.inl hx, by rw [hx]; exact h⟩
        · exact ⟨Or.inr hx.1, hx.2⟩
      · rintro ⟨hx | hx, hne⟩
        · exact Or.inl hx
        · exact Or.inr ⟨hx, hne⟩

theorem hget_hset_self (m : List (Int × String)) (k : Int) (v : String) :
    hget (hset m k v) k = some v := by
  unfold hset
  induction m with
  | nil => simp [hdel, hget]
  | cons p rest ih =>
    by_cases h : p.1 = k
    · simpa [hdel, h] using ih
    · simpa [hdel, hget, h] using ih

theorem hget_hset_ne (m : List (Int × String)) (k k' : Int) (v : String)
    (h : k' ≠ k) : hget (hset m k v) k' = hget m k' := by
  unfold hset
  induction m with
  | nil => simp [hdel, hget, Ne.symm h]
  | cons p rest ih =>
    by_cases hp : p.1 = k
    · have hne : ¬ p.1 = k' := fun hh => h (hh.symm.trans hp)
      rw [show hdel (p :: rest) k = hdel rest k from by simp [hdel, hp]]
      rw [ih]
      simp [hget, hne]
    · rw [show hdel (p :: rest) k = p :: hdel rest k from by simp [hdel, hp]]
      by_cases hx : p.1 = k'
      · simp [hget, hx]
      · simp [hget, hx, ih]

theorem mem_hkeys_hset (m : List (Int × String)) (k x : Int) (v : String) :
    x ∈ hkeys (hset m k v) ↔ x ∈ hkeys m ∨ x = k := by
  unfold hset
  rw [show hkeys (hdel m k ++ [(k, v)]) = hkeys (hdel m k) ++ [k] by
    simp [hkeys]]
  simp [mem_hkeys_hdel]
  constructor
  · rintro (⟨hx, _⟩ | hx)
    · exact Or.inl hx
    · exact Or.inr hx
  · rintro (hx | hx)
    · by_cases he : x = k
      · exact Or.inr he
      · exact Or.inl ⟨hx, he⟩
    · exact Or.inr hx

theorem hkeys_hdel_nodup (m : List (Int × String)) (k : Int)
    (h : (hkeys m).Nodup) : (hkeys (hdel m k)).Nodup := by
  induction m with
  | nil => simp [hdel, hkeys]
  | cons p rest ih =>
    rw [hkeys_cons, List.nodup_cons] at h
    by_cases hp : p.1 = k
    · rw [show hdel (p :: rest) k = hdel rest k from by simp [hdel, hp]]
      exact ih h.2
    · rw [show hdel (p :: rest) k = p :: hdel rest k from by simp [hdel, hp]]
      rw [hkeys_cons, List.nodup_cons]
      exact ⟨fun hmem => h.1 ((mem_hkeys_hdel rest k p.1).mp hmem).1, ih h.2⟩

theorem hkeys_hset_nodup (m : List (Int × String)) (k : Int) (v : String)
    (h : (hkeys m).Nodup) : (hkeys (hset m k v)).Nodup := by
  unfold hset
  rw [show hkeys (hdel m k ++ [(k, v)]) = hkeys (hdel m k) ++ [k] by
    simp [hkeys]]
  rw [List.nodup_append]
  refine ⟨hkeys_hdel_nodup m k h, List.nodup_singleton k, ?_⟩
  intro x hx hk
  simp at hk
  exact ((mem_hkeys_hdel m k x).mp hx).2 hk

theorem mem_of_mem_hdel (m : List (Int × String)) (k : Int)
    (p : Int × String) (h : p ∈ hdel m k) : p ∈ m := by
  induction m with
  | nil => simp [hdel] at h
  | cons q rest ih =>
    by_cases hq : q.1 = k
    · simp [hdel, hq] at h
      exact List.mem_cons_of_mem _ (ih h)
    · simp [hdel, hq] at h
      rcases h with h | h
      · simp [h]
      · exact List.mem_cons_of_mem _ (ih h)

theorem mem_of_mem_hset (m : List (Int × String)) (k : Int) (v : String)
    (p : Int × String) (h : p ∈ hset m k v) : p ∈ m ∨ p = (k, v) := by
  unfold hset at h
  rcases List.mem_append.mp h with h | h
  · exact Or.inl (mem_of_mem_hdel m k p h)
  · simp at h
    exact Or.inr h

/-! Basic lemmas about the Redis-set model. -/

theorem mem_srem (s : List Int) (x y : Int) :
    y ∈ srem s x ↔ y ∈ s ∧ y ≠ x := by
  simp [srem, List.mem_filter, bne_iff_ne]

theorem srem_nodup (s : List Int) (x : Int) (h : s.Nodup) :
    (srem s x).Nodup :=
  List.Nodup.filter _ h

theorem mem_sadd (s : List Int) (x y : Int) :
    y ∈ sadd s x ↔ y ∈ s ∨ y = x := by
  unfold sadd
  by_cases h : x ∈ s
  · rw [if_pos h]
    constructor
    · exact Or.inl
    · rintro (hy | hy)
      · exact hy
      · exact hy ▸ h
  · rw [if_neg h, List.mem_cons]
    tauto

theorem sadd_nodup (s : List Int) (x : Int) (h : s.Nodup) :
    (sadd s x).Nodup := by
  unfold sadd
  by_cases hx : x ∈ s
  · rwa [if_pos hx]
  · rw [if_neg hx]
    exact List.Nodup.cons hx h

/-! Preservation of the sequential invariant. -/

theorem invE_empty : InvE emptyEvent := by
  refine ⟨?_, ?_, ?_, ?_, ?_⟩ <;> simp [emptyEvent, hkeys]

theorem invE_toggle (e : EventState) (s : Int) (now : String) (hnow : now ≠ "")
    (h : InvE e) : InvE (student_checkin_edit e s now).1 := by
  obtain ⟨h1, h2, h3, h4, h5⟩ := h
  unfold student_checkin_edit
  by_cases hm : s ∈ e.checkInSet
  · rw [if_pos hm]
    refine ⟨srem_nodup _ _ h1, h2, ?_, ?_, h5⟩
    · intro x hx
      exact h3 x ((mem_srem _ _ _).mp hx).1
    · intro x hx hk
      obtain ⟨hxs, hxne⟩ := (mem_srem _ _ _).mp hx
      rcases (mem_hkeys_hset _ _ _ _).mp hk with hk | hk
      · exact h4 x hxs hk
      · exact hxne hk
  · rw [if_neg hm]
    refine ⟨sadd_nodup _ _ h1, hkeys_hset_nodup _ _ _ h2, ?_, ?_, ?_⟩
    · intro x hx
      rcases (mem_sadd _ _ _).mp hx with hx | hx
      · exact (mem_hkeys_hset _ _ _ _).mpr (Or.inl (h3 x hx))
      · exact (mem_hkeys_hset _ _ _ _).mpr (Or.inr hx)
    · intro x hx hk
      obtain ⟨hkc, hkne⟩ := (mem_hkeys_hdel _ _ _).mp hk
      rcases (mem_sadd _ _ _).mp hx with hx | hx
      · exact h4 x hx hkc
      · exact hkne hx
    · intro p hp
      rcases mem_of_mem_hset _ _ _ _ hp with hp | hp
      · exact h5 p hp
      · rw [hp]
        exact hnow

theorem finalize_redis_cases (eid : Int) (st : SysState) (mysqlOk : Bool) :
    (finalize_event_attendance eid st mysqlOk).1.redis = emptyEvent ∨
    (finalize_event_attendance eid st mysqlOk).1 = st := by
  unfold finalize_event_attendance
  by_cases he : (hkeys st.redis.checkInTimes).isEmpty
  · rw [if_pos he]
    exact Or.inl rfl
  · rw [if_neg he]
    cases mysqlOk
    · exact Or.inr rfl
    · exact Or.inl rfl

theorem reachable_invE (eid : Int) (st : SysState) (h : Reachable eid st) :
    InvE st.redis := by
  induction h with
  | init => exact invE_empty
  | toggle student now _ hnow ih => exact invE_toggle _ student now hnow ih
  | finalize mysqlOk hr ih =>
    rcases finalize_redis_cases eid _ mysqlOk with hc | hc
    · rw [hc]
      exact invE_empty
    · rw [hc]
      exact ih
  | snapshot _ ih => exact ih
  | winner _ ih => exact ih

/-! Claim theorems. -/

/-- C3: the toggle `checkin_edit(E,S)`: if `S` is a member of `CheckInSet` it
is removed, `CheckOutTimes[S]` is stamped with the current timestamp and the
call returns CHECKED_OUT; otherwise `S` is added, `CheckInTimes[S]` is
stamped, any existing `CheckOutTimes[S]` entry is deleted and the call
returns CHECKED_IN. -/
theorem spec_C3 (st : EventState) (s : Int) (now : String) :
    (s ∈ st.checkInSet →
      (student_checkin_edit st s now).2 = "CHECKED OUT" ∧
      s ∉ (student_checkin_edit st s now).1.checkInSet ∧
      hget (student_checkin_edit st s now).1.checkOutTimes s = some now) ∧
    (s ∉ st.checkInSet →
      (student_checkin_edit st s now).2 = "CHECKED IN" ∧
      s ∈ (student_checkin_edit st s now).1.checkInSet ∧
      hget (student_checkin_edit st s now).1.checkInTimes s = some now ∧
      hget (student_checkin_edit st s now).1.checkOutTimes s = none) := by
  constructor
  · intro hm
    have he : student_checkin_edit st s now =
        ({ st with
            checkInSet := srem st.checkInSet s
            checkOutTimes := hset st.checkOutTimes s now },
         "CHECKED OUT") := by
      unfold student_checkin_edit
      rw [if_pos hm]
    rw [he]
    refine ⟨rfl, ?_, hget_hset_self _ _ _⟩
    intro hx
    exact ((mem_srem _ _ _).mp hx).2 rfl
  · intro hm
    have he : student_checkin_edit st s now =
        ({ st with
            checkInSet := sadd st.checkInSet s
            checkInTimes := hset st.checkInTimes s now
            checkOutTimes := hdel st.checkOutTimes s },
         "CHECKED IN") := by
      unfold student_checkin_edit
      rw [if_neg hm]
    rw [he]
    exact ⟨rfl, (mem_sadd _ _ _).mpr (Or.inr rfl),
      hget_hset_self _ _ _, hget_hdel_self _ _⟩

/-- Witness for C3: a checked-in student toggles out, an absent student
toggles in. -/
theorem spec_C3_inst :
    (student_checkin_edit ⟨[7], [(7, "a")], []⟩ 7 "b").2 = "CHECKED OUT" ∧
    (student_checkin_edit ⟨[], [], [(7, "a")]⟩ 7 "b").2 = "CHECKED IN" :=
  ⟨((spec_C3 ⟨[7], [(7, "a")], []⟩ 7 "b").1 (by decide)).1,
   ((spec_C3 ⟨[], [], [(7, "a")]⟩ 7 "b").2 (by decide)).1⟩

/-- C5: finalize on an event with an empty check-in history deletes the
ephemeral keys, leaves the durable table unchanged, and returns
`records_persisted = 0` with an explanatory message instead of raising. -/
theorem spec_C5 (eid : Int) (st : SysState) (mysqlOk : Bool)
    (he : hkeys st.redis.checkInTimes = []) :
    (finalize_event_attendance eid st mysqlOk).1.redis = emptyEvent ∧
    (finalize_event_attendance eid st mysqlOk).1.mysql = st.mysql ∧
    (finalize_event_attendance eid st mysqlOk).2 = Except.ok
      { event_id := eid
        records_persisted := 0
        message := "No attendance data found for this event" } := by
  unfold finalize_event_attendance
  rw [if_pos (by simp [he])]
  exact ⟨rfl, rfl, rfl⟩

/-- Witness for C5: stale checked-in set, no check-in history. -/
theorem spec_C5_inst :
    (finalize_event_attendance 5 ⟨⟨[3], [], [(3, "a")]⟩, []⟩ true).1.redis =
      emptyEvent ∧
    (finalize_event_attendance 5 ⟨⟨[3], [], [(3, "a")]⟩, []⟩ true).1.mysql = [] ∧
    (finalize_event_attendance 5 ⟨⟨[3], [], [(3, "a")]⟩, []⟩ true).2 = Except.ok
      { event_id := 5
        records_persisted := 0
        message := "No attendance data found for this event" } :=
  spec_C5 5 ⟨⟨[3], [], [(3, "a")]⟩, []⟩ true (by decide)

/-- C1: when the check-in history is non-empty and the MySQL batch insert
fails, finalize leaves the whole state (all three ephemeral keys and the
durable table) exactly as it was and surfaces the failure as an exception;
the ephemeral keys end up deleted iff the durable write succeeds. -/
theorem spec_C1 (eid : Int) (st : SysState)
    (hne : hkeys st.redis.checkInTimes ≠ []) :
    (finalize_event_attendance eid st false).1 = st ∧
    (finalize_event_attendance eid st false).2 =
      Except.error "Failed to persist attendance to MySQL" ∧
    ∀ mysqlOk : Bool,
      ((finalize_event_attendance eid st mysqlOk).1.redis = emptyEvent ↔
        mysqlOk = true) := by
  have hb : ¬ ((hkeys st.redis.checkInTimes).isEmpty = true) := by
    rw [List.isEmpty_iff]
    exact hne
  refine ⟨?_, ?_, ?_⟩
  · unfold finalize_event_attendance
    rw [if_neg hb]
    rfl
  · unfold finalize_event_attendance
    rw [if_neg hb]
    rfl
  · intro mysqlOk
    cases mysqlOk with
    | false =>
      unfold finalize_event_attendance
      rw [if_neg hb]
      simp only [Bool.false_eq_true, if_false, iff_false]
      intro hrd
      apply hne
      rw [hrd]
      rfl
    | true =>
      unfold finalize_event_attendance
      rw [if_neg hb]
      simp

/-- Witness for C1: one student checked in, MySQL write fails. -/
theorem spec_C1_inst :
    (finalize_event_attendance 5 ⟨⟨[1], [(1, "t")], []⟩, []⟩ false).1 =
      ⟨⟨[1], [(1, "t")], []⟩, []⟩ ∧
    (finalize_event_attendance 5 ⟨⟨[1], [(1, "t")], []⟩, []⟩ false).2 =
      Except.error "Failed to persist attendance to MySQL" ∧
    ∀ mysqlOk : Bool,
      ((finalize_event_attendance 5 ⟨⟨[1], [(1, "t")], []⟩, []⟩ mysqlOk).1.redis =
        emptyEvent ↔ mysqlOk = true) :=
  spec_C1 5 ⟨⟨[1], [(1, "t")], []⟩, []⟩ (by decide)

/-- C6: the raffle returns `none` exactly when the live snapshot's
`checked_in_count` is 0; a returned winner is always a member of the live
checked-in set; and the read does not change the state. -/
theorem spec_C6 (eid : Int) (st : EventState) (i : Nat) :
    (get_random_winner st i).1 = st ∧
    ((get_random_winner st i).2 = none ↔
      (get_live_attendance eid st).checked_in_count = 0) ∧
    ∀ x : Int, (get_random_winner st i).2 = some x → x ∈ st.checkInSet := by
  refine ⟨rfl, ?_, ?_⟩
  · show st.checkInSet[i % st.checkInSet.length]? = none ↔
      st.checkInSet.length = 0
    rw [List.getElem?_eq_none_iff]
    constructor
    · intro hle
      by_contra hlen
      exact absurd (Nat.mod_lt i (Nat.pos_of_ne_zero hlen))
        (Nat.not_lt.mpr hle)
    · intro hz
      rw [hz]
      exact Nat.zero_le _
  · intro x hx
    obtain ⟨hlt, hg⟩ := List.getElem?_eq_some_iff.mp hx
    exact hg ▸ List.getElem_mem hlt

/-- Witness for C6: two students checked in, draw index 3. -/
theorem spec_C6_inst :
    (get_random_winner ⟨[4, 5], [], []⟩ 3).1 = ⟨[4, 5], [], []⟩ ∧
    ((get_random_winner ⟨[4, 5], [], []⟩ 3).2 = none ↔
      (get_live_attendance 9 ⟨[4, 5], [], []⟩).checked_in_count = 0) ∧
    ∀ x : Int, (get_random_winner ⟨[4, 5], [], []⟩ 3).2 = some x →
      x ∈ [(4 : Int), 5] :=
  spec_C6 9 ⟨[4, 5], [], []⟩ 3

/-- C7: the live snapshot lists, for every currently checked-in student, the
timestamp stored in `CheckInTimes`, and the sentinel `N/A` when no timestamp
is on record — the request never fails on a missing timestamp. -/
theorem spec_C7 (eid : Int) (st : EventState) :
    ∀ m ∈ st.checkInSet,
      ∃ e ∈ (get_live_attendance eid st).students,
        e.student_id = m ∧
        (∀ t, hget st.checkInTimes m = some t → e.check_in_time = t) ∧
        (hget st.checkInTimes m = none → e.check_in_time = "N/A") := by
  intro m hm
  refine ⟨{ student_id := m
            check_in_time := (hget st.checkInTimes m).getD "N/A" },
    List.mem_map_of_mem _ hm, rfl, ?_, ?_⟩
  · intro t ht
    rw [ht]
    rfl
  · intro ht
    rw [ht]
    rfl

/-- Witness for C7: student 3 has a stored timestamp, student 4 has none. -/
theorem spec_C7_inst :
    ∃ e ∈ (get_live_attendance 9 ⟨[4], [(3, "a")], []⟩).students,
      e.student_id = 4 ∧
      (∀ t, hget [(3, "a")] 4 = some t → e.check_in_time = t) ∧
      (hget [(3, "a")] 4 = none → e.check_in_time = "N/A") :=
  spec_C7 9 ⟨[4], [(3, "a")], []⟩ 4 (by decide)

theorem countP_range_getElem (l : List Int) (m : Int) :
    (List.range l.length).countP (fun i => l[i]? == some m) = l.count m := by
  induction l with
  | nil => simp
  | cons a t ih =>
    rw [List.length_cons, List.range_succ_eq_map, List.countP_cons,
      List.countP_map]
    have hc : ((fun i => (a :: t)[i]? == some m) ∘ Nat.succ) =
        fun i => t[i]? == some m := by
      funext i
      simp [Function.comp, List.getElem?_cons_succ]
    rw [hc, ih, List.count_cons]
    simp only [List.getElem?_cons_zero, Option.some_beq_some]

/-- C8: with the random index drawn uniformly from `List.range card`, every
member of a non-empty checked-in set is returned by exactly one index — all
members have equal, non-zero selection probability. -/
theorem spec_C8 (st : EventState) (hnd : st.checkInSet.Nodup)
    (_hne : st.checkInSet ≠ []) :
    ∀ m ∈ st.checkInSet,
      (List.range st.checkInSet.length).countP
        (fun i => (get_random_winner st i).2 == some m) = 1 := by
  intro m hm
  have hcg : (List.range st.checkInSet.length).countP
      (fun i => (get_random_winner st i).2 == some m) =
      (List.range st.checkInSet.length).countP
      (fun i => st.checkInSet[i]? == some m) := by
    apply List.countP_congr
    intro i hi
    have hlt : i < st.checkInSet.length := List.mem_range.mp hi
    show ((get_random_winner st i).2 == some m) = true ↔
      (st.checkInSet[i]? == some m) = true
    unfold get_random_winner
    rw [Nat.mod_eq_of_lt hlt]
  rw [hcg, countP_range_getElem]
  exact List.count_eq_one_of_mem hnd hm

/-- Witness for C8: each of the two members wins under exactly one index. -/
theorem spec_C8_inst :
    (List.range 2).countP
      (fun i => (get_random_winner ⟨[4, 7], [], []⟩ i).2 == some 4) = 1 :=
  spec_C8 ⟨[4, 7], [], []⟩ (by decide) (by decide) 4 (by decide)

/-! Branch equations for finalize. -/

theorem finalize_empty_eq (eid : Int) (st : SysState) (mysqlOk : Bool)
    (he : hkeys st.redis.checkInTimes = []) :
    finalize_event_attendance eid st mysqlOk =
      (⟨emptyEvent, st.mysql⟩,
       Except.ok
         { event_id := eid
           records_persisted := 0
           message := "No attendance data found for this event" }) := by
  unfold finalize_event_attendance
  rw [if_pos (by rw [List.isEmpty_iff]; exact he)]

theorem finalize_ok_eq (eid : Int) (st : SysState)
    (hne : hkeys st.redis.checkInTimes ≠ []) :
    finalize_event_attendance eid st true =
      (⟨emptyEvent, st.mysql ++ finalizeRecords eid st.redis⟩,
       Except.ok
         { event_id := eid
           records_persisted := (finalizeRecords eid st.redis).length
           message := "Successfully persisted " ++
             toString (finalizeRecords eid st.redis).length ++
             " attendance records to MySQL" }) := by
  unfold finalize_event_attendance
  rw [if_neg (by rw [List.isEmpty_iff]; exact hne)]
  rfl

theorem finalize_fail_eq (eid : Int) (st : SysState)
    (hne : hkeys st.redis.checkInTimes ≠ []) :
    finalize_event_attendance eid st false =
      (st, Except.error "Failed to persist attendance to MySQL") := by
  unfold finalize_event_attendance
  rw [if_neg (by rw [List.isEmpty_iff]; exact hne)]
  rfl

/-- C9 (implicit invariant): in every reachable state, no student is both a
member of `CheckInSet` and a key of `CheckOutTimes` — being checked in and
having a pending checkout timestamp are mutually exclusive. -/
theorem spec_C9 (eid : Int) (st : SysState) (h : Reachable eid st) :
    ∀ x ∈ st.redis.checkInSet, x ∉ hkeys st.redis.checkOutTimes :=
  (reachable_invE eid st h).2.2.2.1

/-- Witness for C9: after checking student 1 in from the empty state. -/
theorem spec_C9_inst :
    (1 : Int) ∉
      hkeys (SysState.mk (student_checkin_edit emptyEvent 1 "t").1
        []).redis.checkOutTimes :=
  spec_C9 5 _ (Reachable.toggle 1 "t" Reachable.init (by decide)) 1 (by decide)

/-- C10 (implicit invariant): in every reachable state every member of
`CheckInSet` is a key of `CheckInTimes`; hence the member is part of
finalize's persistence universe and its snapshot row carries the stored
timestamp, never the missing-data sentinel. -/
theorem spec_C10 (eid : Int) (st : SysState) (h : Reachable eid st) :
    ∀ x ∈ st.redis.checkInSet,
      x ∈ hkeys st.redis.checkInTimes ∧
      ∃ e ∈ (get_live_attendance eid st.redis).students,
        e.student_id = x ∧
        hget st.redis.checkInTimes x = some e.check_in_time := by
  intro x hx
  obtain ⟨h1, h2, h3, h4, h5⟩ := reachable_invE eid st h
  have hk := h3 x hx
  obtain ⟨t, ht⟩ := hget_isSome_of_mem_hkeys _ _ hk
  refine ⟨hk,
    ⟨{ student_id := x
       check_in_time := (hget st.redis.checkInTimes x).getD "N/A" },
     List.mem_map_of_mem _ hx, rfl, ?_⟩⟩
  rw [ht]
  rfl

/-- Witness for C10: after checking student 1 in from the empty state. -/
theorem spec_C10_inst :
    (1 : Int) ∈
      hkeys (SysState.mk (student_checkin_edit emptyEvent 1 "t").1
        []).redis.checkInTimes ∧
    ∃ e ∈ (get_live_attendance 5
      (SysState.mk (student_checkin_edit emptyEvent 1 "t").1 []).redis).students,
      e.student_id = 1 ∧
      hget (SysState.mk (student_checkin_edit emptyEvent 1 "t").1
        []).redis.checkInTimes 1 = some e.check_in_time :=
  spec_C10 5 _ (Reachable.toggle 1 "t" Reachable.init (by decide)) 1 (by decide)

/-- C2: in any reachable state with a non-empty check-in history, a
successful finalize appends to the durable table exactly one record per
student id that is a key of `CheckInTimes`; every record carries that
student's stored check-in time, and a student still in `CheckInSet` gets a
null `CheckOutTime`. -/
theorem spec_C2 (eid : Int) (st : SysState) (h : Reachable eid st)
    (hne : hkeys st.redis.checkInTimes ≠ []) :
    (finalize_event_attendance eid st true).1.redis = emptyEvent ∧
    (finalize_event_attendance eid st true).1.mysql =
      st.mysql ++ finalizeRecords eid st.redis ∧
    (finalize_event_attendance eid st true).2 = Except.ok
      { event_id := eid
        records_persisted := (finalizeRecords eid st.redis).length
        message := "Successfully persisted " ++
          toString (finalizeRecords eid st.redis).length ++
          " attendance records to MySQL" } ∧
    (∀ sid ∈ hkeys st.redis.checkInTimes,
      (finalizeRecords eid st.redis).countP
        (fun r => r.studentID == sid) = 1) ∧
    (∀ r ∈ finalizeRecords eid st.redis,
      r.eventID = eid ∧
      r.checkInTime = hget st.redis.checkInTimes r.studentID ∧
      (r.studentID ∈ st.redis.checkInSet → r.checkOutTime = none)) := by
  obtain ⟨h1, h2, h3, h4, h5⟩ := reachable_invE eid st h
  rw [finalize_ok_eq eid st hne]
  refine ⟨rfl, rfl, rfl, ?_, ?_⟩
  · intro sid hsid
    unfold finalizeRecords
    rw [List.countP_map]
    show (hkeys st.redis.checkInTimes).countP (fun x => x == sid) = 1
    exact List.count_eq_one_of_mem h2 hsid
  · intro r hr
    unfold finalizeRecords at hr
    obtain ⟨sid, hsid, rfl⟩ := List.mem_map.mp hr
    refine ⟨rfl, ?_, ?_⟩
    · obtain ⟨t, ht⟩ := hget_isSome_of_mem_hkeys _ _ hsid
      show pyTime (hget st.redis.checkInTimes sid) =
        hget st.redis.checkInTimes sid
      rw [ht]
      have hte : t ≠ "" := h5 (sid, t) (hget_mem _ _ _ ht)
      simp [pyTime, hte]
    · intro hmem
      show pyTime (hget st.redis.checkOutTimes sid) = none
      have hn : hget st.redis.checkOutTimes sid = none :=
        (hget_eq_none_iff _ _).mpr (h4 sid hmem)
      rw [hn]
      rfl

/-- Witness for C2: student 1 checks in, student 2 checks in then out, then
a successful finalize. -/
theorem spec_C2_inst :
    (finalize_event_attendance 5
      (SysState.mk
        (student_checkin_edit
          (student_checkin_edit
            (student_checkin_edit emptyEvent 1 "t1").1 2 "t2").1 2 "t3").1 [])
      true).1.mysql =
    [] ++ finalizeRecords 5
      (student_checkin_edit
        (student_checkin_edit
          (student_checkin_edit emptyEvent 1 "t1").1 2 "t2").1 2 "t3").1 :=
  (spec_C2 5 _
    (Reachable.toggle 2 "t3"
      (Reachable.toggle 2 "t2"
        (Reachable.toggle 1 "t1" Reachable.init (by decide))
        (by decide))
      (by decide))
    (by decide)).2.1

/-- C4: a successful finalize on an event with no prior durable records
leaves a live snapshot with `checked_in_count = 0`, and every student who
ever appeared in the check-in history ends up with exactly one durable
record for the event. -/
theorem spec_C4 (eid : Int) (st : SysState) (mysqlOk : Bool)
    (hnd : (hkeys st.redis.checkInTimes).Nodup)
    (hfresh : ∀ r ∈ st.mysql, r.eventID ≠ eid)
    (hok : ∃ s, (finalize_event_attendance eid st mysqlOk).2 = Except.ok s) :
    (get_live_attendance eid
      (finalize_event_attendance eid st mysqlOk).1.redis).checked_in_count
      = 0 ∧
    ∀ sid ∈ hkeys st.redis.checkInTimes,
      ((finalize_event_attendance eid st mysqlOk).1.mysql).countP
        (fun r => r.eventID == eid && r.studentID == sid) = 1 := by
  by_cases he : hkeys st.redis.checkInTimes = []
  · rw [finalize_empty_eq eid st mysqlOk he]
    refine ⟨rfl, ?_⟩
    intro sid hsid
    rw [he] at hsid
    simp at hsid
  · cases mysqlOk with
    | false =>
      exfalso
      obtain ⟨s, hs⟩ := hok
      rw [finalize_fail_eq eid st he] at hs
      simp at hs
    | true =>
      rw [finalize_ok_eq eid st he]
      refine ⟨rfl, ?_⟩
      intro sid hsid
      show (st.mysql ++ finalizeRecords eid st.redis).countP
        (fun r => r.eventID == eid && r.studentID == sid) = 1
      rw [List.countP_append]
      have hz : st.mysql.countP
          (fun r => r.eventID == eid && r.studentID == sid) = 0 := by
        rw [List.countP_eq_zero]
        intro r hr
        simp only [Bool.and_eq_true, beq_iff_eq]
        rintro ⟨h1, -⟩
        exact hfresh r hr h1
      rw [hz, Nat.zero_add]
      unfold finalizeRecords
      rw [List.countP_map]
      have hc : ((fun r : AttendanceRecord =>
            r.eventID == eid && r.studentID == sid) ∘
          fun s' => ({ eventID := eid, studentID := s'
                       checkInTime := pyTime (hget st.redis.checkInTimes s')
                       checkOutTime :=
                         pyTime (hget st.redis.checkOutTimes s') } :
              AttendanceRecord)) =
          fun s' => s' == sid := by
        funext s'
        simp [Function.comp]
      rw [hc]
      exact List.count_eq_one_of_mem hnd hsid

/-- Witness for C4: one student checked in, first finalize succeeds. -/
theorem spec_C4_inst :
    (get_live_attendance 5
      (finalize_event_attendance 5 ⟨⟨[1], [(1, "t")], []⟩, []⟩
        true).1.redis).checked_in_count = 0 :=
  (spec_C4 5 ⟨⟨[1], [(1, "t")], []⟩, []⟩ true (by decide) (by simp)
    ⟨_, rfl⟩).1
